import Mathlib

/-!
Shallow embedding of `src/converters/to-json-schema.ts` from the
microcms-schema-adapter repository, together with the data model of
`src/types/microcms-schema.ts`.

JSON Schema nodes are modelled as ordered JSON objects (key/value lists),
so that key insertion order and the presence or absence of a key are
observable, exactly as in the JavaScript objects the converter builds.
JavaScript `Map.set` / `Map.get` and object property assignment are
modelled by `setAssoc` / `getAssoc` on association lists: `set` replaces
the value at the first occurrence of the key (keeping its position) and
otherwise appends, which is the JS insertion-order semantics.
-/

/-- JSON value, with objects as ordered key/value lists. -/
inductive Json where
  | str : String → Json
  | num : Int → Json
  | bool : Bool → Json
  | arr : List Json → Json
  | obj : List (String × Json) → Json
deriving Repr

/-- JS `Map.get` / object property read on an association list: the value
at the first occurrence of the key. -/
def getAssoc {β : Type} : List (String × β) → String → Option β
  | [], _ => none
  | p :: m, k => if p.1 = k then some p.2 else getAssoc m k

/-- JS `Map.has` / `in` on an association list. -/
def hasKey {β : Type} : List (String × β) → String → Bool
  | [], _ => false
  | p :: m, k => decide (p.1 = k) || hasKey m k

/-- JS `Map.set` / object property assignment on an association list:
replace the value at an existing key in place, else append the new entry. -/
def setAssoc {β : Type} (m : List (String × β)) (k : String) (v : β) :
    List (String × β) :=
  if hasKey m k then
    m.map (fun p => if p.1 = k then (k, v) else p)
  else
    m ++ [(k, v)]

/-- Read a top-level key of a JSON object (JS property read). -/
def objGet : Json → String → Option Json
  | Json.obj kvs, k => getAssoc kvs k
  | _, _ => none

/-- JS object spread of two key lists: keys of the first in order, values
overridden by the second where present, then the new keys of the second. -/
def jsSpread (a b : List (String × Json)) : List (String × Json) :=
  a.map (fun p =>
    match getAssoc b p.1 with
    | some v => (p.1, v)
    | none => p)
  ++ b.filter (fun q => !(hasKey a q.1))

/-- One choice of a select field (`MicroCMSSelectItem`). -/
structure MicroCMSSelectItem where
  id : String
  value : String
deriving Repr, DecidableEq

/-- Kind-specific payload of a field, tagged exactly like the TypeScript
discriminated union `MicroCMSField`. -/
inductive FieldKind where
  | text (isUnique : Option Bool)
  | textArea
  | richEditorV2
  | select (multipleSelect : Bool) (selectItems : List MicroCMSSelectItem)
      (selectInitialValue : Option (List MicroCMSSelectItem))
  | number (numberMin : Option Int) (numberMax : Option Int)
  | date (dateFormat : Option Bool)
  | boolean (booleanInitialValue : Option Bool)
  | media
  | relation (referencedApiEndpoint : String) (multipleSelect : Option Bool)
  | relationList (referencedApiEndpoint : String)
  | repeater (customFieldCreatedAtList : List String)
  | custom (customFieldCreatedAt : String)
deriving Repr, DecidableEq

/-- Value of the `kind` discriminator string of a field. -/
def kindTag : FieldKind → String
  | .text _ => "text"
  | .textArea => "textArea"
  | .richEditorV2 => "richEditorV2"
  | .select _ _ _ => "select"
  | .number _ _ => "number"
  | .date _ => "date"
  | .boolean _ => "boolean"
  | .media => "media"
  | .relation _ _ => "relation"
  | .relationList _ => "relationList"
  | .repeater _ => "repeater"
  | .custom _ => "custom"

/-- One field definition (`MicroCMSField`); the optional `required` flag is
`Option Bool` because the TS property is optional and read by truthiness. -/
structure MicroCMSField where
  fieldId : String
  name : String
  required : Option Bool
  description : Option String
  kind : FieldKind
deriving Repr, DecidableEq

/-- One reusable custom-field definition (`MicroCMSCustomFieldDefinition`). -/
structure MicroCMSCustomFieldDefinition where
  createdAt : String
  fieldId : String
  name : String
  fields : List MicroCMSField
deriving Repr, DecidableEq

/-- One API schema (`MicroCMSApiSchema`). -/
structure MicroCMSApiSchema where
  apiFields : List MicroCMSField
  customFields : Option (List MicroCMSCustomFieldDefinition)
deriving Repr, DecidableEq

/-- One named bundle entry (`MicroCMSApiEntry`). -/
structure MicroCMSApiEntry where
  endpoint : String
  api : MicroCMSApiSchema
deriving Repr, DecidableEq

/-- A schema bundle (`MicroCMSSchemaBundle`). -/
structure MicroCMSSchemaBundle where
  version : String
  pulledAt : String
  serviceDomain : Option String
  apis : List MicroCMSApiEntry
deriving Repr, DecidableEq

/-- Options of the conversion entry point (`ToJsonSchemaOptions`). -/
structure ToJsonSchemaOptions where
  title : Option String
  includeExtensions : Option Bool
deriving Repr, DecidableEq

/-- JS truthiness of an optional string (`undefined` and `""` are falsy). -/
def jsTruthyString : Option String → Bool
  | none => false
  | some s => !(s == "")

/-- The `options?.title` access. -/
def optTitle (options : Option ToJsonSchemaOptions) : Option String :=
  options.bind (fun o => o.title)

/-- Truthiness of `options?.includeExtensions`. -/
def optIncludeExtensions (options : Option ToJsonSchemaOptions) : Bool :=
  match options with
  | some o => o.includeExtensions.getD false
  | none => false

/-- The reusable-definition pool as built by `buildCustomFieldMap`
(a JS `Map` keyed by `createdAt`). -/
abbrev CustomFieldMap : Type := List (String × MicroCMSCustomFieldDefinition)

/-- Pool construction (`buildCustomFieldMap`): fold `map.set(def.createdAt, def)`
over the list; an absent list gives the empty map. -/
def buildCustomFieldMap :
    Option (List MicroCMSCustomFieldDefinition) → CustomFieldMap
  | none => []
  | some customFields =>
      customFields.foldl (fun m d => setAssoc m d.createdAt d) []

/-- Untyped object schema, the cycle / missing-definition fallback. -/
def untypedObjectSchema : Json := Json.obj [("type", Json.str "object")]

/-- One step of the `schemas` accumulator loop of `convertRepeater`: push
the resolved schema, drop an unresolved identifier. -/
def repeaterPush (resolve : String → Option Json) (schemas : List Json)
    (createdAt : String) : List Json :=
  match resolve createdAt with
  | some r => schemas ++ [r]
  | none => schemas

/-- The `schemas` accumulator loop of `convertRepeater`: resolve each listed
identifier and push the successful results in order. -/
def repeaterSchemas (resolve : String → Option Json)
    (createdAtList : List String) : List Json :=
  createdAtList.foldl (repeaterPush resolve) []

/-- Body of `convertRepeater`, parametrized by the resolver closure. -/
def convertRepeaterAux (resolve : String → Option Json)
    (createdAtList : List String) : Json :=
  match repeaterSchemas resolve createdAtList with
  | [] => Json.obj [("type", Json.str "array")]
  | [s] => Json.obj [("type", Json.str "array"), ("items", s)]
  | schemas =>
      Json.obj [("type", Json.str "array"),
                ("items", Json.obj [("oneOf", Json.arr schemas)])]

/-- Body of `convertCustom`, parametrized by the resolver closure:
`resolved ?? untyped object`. -/
def convertCustomAux (resolve : String → Option Json) (createdAt : String) :
    Json :=
  (resolve createdAt).getD untypedObjectSchema

/-- Body of `convertFieldByKind`, parametrized by the resolver closure. -/
def convertFieldByKindAux (resolve : String → Option Json)
    (field : MicroCMSField) : Json :=
  match field.kind with
  | .text _ => Json.obj [("type", Json.str "string")]
  | .textArea => Json.obj [("type", Json.str "string")]
  | .richEditorV2 =>
      Json.obj [("type", Json.str "string"),
                ("contentMediaType", Json.str "text/html")]
  | .select multipleSelect selectItems _ =>
      let values := selectItems.map (fun item => item.value)
      if multipleSelect then
        Json.obj [("type", Json.str "array"),
          ("items", Json.obj [("type", Json.str "string"),
                              ("enum", Json.arr (values.map Json.str))])]
      else
        Json.obj [("type", Json.str "string"),
                  ("enum", Json.arr (values.map Json.str))]
  | .number numberMin numberMax =>
      Json.obj ([("type", Json.str "number")]
        ++ (match numberMin with
            | some v => [("minimum", Json.num v)]
            | none => [])
        ++ (match numberMax with
            | some v => [("maximum", Json.num v)]
            | none => []))
  | .date _ =>
      Json.obj [("type", Json.str "string"), ("format", Json.str "date-time")]
  | .boolean booleanInitialValue =>
      Json.obj ([("type", Json.str "boolean")]
        ++ (match booleanInitialValue with
            | some v => [("default", Json.bool v)]
            | none => []))
  | .media =>
      Json.obj [("type", Json.str "object"),
        ("properties", Json.obj
          [("url", Json.obj [("type", Json.str "string"),
                             ("format", Json.str "uri")]),
           ("height", Json.obj [("type", Json.str "number")]),
           ("width", Json.obj [("type", Json.str "number")])]),
        ("required", Json.arr [Json.str "url"])]
  | .relation _ _ =>
      Json.obj [("type", Json.str "object"),
        ("properties", Json.obj [("id", Json.obj [("type", Json.str "string")])]),
        ("required", Json.arr [Json.str "id"])]
  | .relationList _ =>
      Json.obj [("type", Json.str "array"),
        ("items", Json.obj [("type", Json.str "object"),
          ("properties", Json.obj [("id", Json.obj [("type", Json.str "string")])]),
          ("required", Json.arr [Json.str "id"])])]
  | .repeater customFieldCreatedAtList =>
      convertRepeaterAux resolve customFieldCreatedAtList
  | .custom customFieldCreatedAt =>
      convertCustomAux resolve customFieldCreatedAt

/-- Body of `convertField`, parametrized by the resolver closure: per-kind
conversion plus the optional extension-metadata spread. -/
def convertFieldAux (resolve : String → Option Json) (field : MicroCMSField)
    (options : Option ToJsonSchemaOptions) : Json :=
  let base := convertFieldByKindAux resolve field
  if optIncludeExtensions options then
    match base with
    | Json.obj kvs =>
        Json.obj (jsSpread kvs
          [("x-microcms-field-id", Json.str field.fieldId),
           ("x-microcms-field-name", Json.str field.name),
           ("x-microcms-kind", Json.str (kindTag field.kind))])
    | other => other
  else
    base

/-- The sibling-assembly loop shared by `toJsonSchema` and
`resolveCustomField`: one pass over the field list accumulating the
`properties` object (by JS property assignment) and the `required` list. -/
def assembleFields (resolve : String → Option Json)
    (fields : List MicroCMSField) (options : Option ToJsonSchemaOptions) :
    List (String × Json) × List String :=
  fields.foldl
    (fun acc field =>
      (setAssoc acc.1 field.fieldId (convertFieldAux resolve field options),
       if field.required.getD false then acc.2 ++ [field.fieldId] else acc.2))
    ([], [])

/-- Number of pool keys not yet on the resolution path; the termination
measure of `resolveCustomField`. -/
def unvisitedCount (m : CustomFieldMap) (visited : List String) : Nat :=
  ((m.map Prod.fst).filter (fun k => !visited.contains k)).length

theorem length_filter_le_of_imp {α : Type} (p q : α → Bool)
    (h : ∀ a, q a = true → p a = true) (l : List α) :
    (l.filter q).length ≤ (l.filter p).length := by
  induction l with
  | nil => simp
  | cons a l ih =>
    by_cases hq : q a = true
    · simp only [List.filter_cons, hq, h a hq, if_true]
      exact Nat.succ_le_succ ih
    · have hq' : q a = false := by revert hq; cases q a <;> simp
      by_cases hp : p a = true
      · simp only [List.filter_cons, hq', hp]
        simp only [Bool.false_eq_true, if_false, if_true, List.length_cons]
        exact Nat.le_succ_of_le ih
      · have hp' : p a = false := by revert hp; cases p a <;> simp
        simp only [List.filter_cons, hq', hp', Bool.false_eq_true, if_false]
        exact ih

theorem length_filter_lt_of_witness {α : Type} (p q : α → Bool)
    (h : ∀ a, q a = true → p a = true) (x : α)
    (hpx : p x = true) (hqx : q x = false) (l : List α) (hx : x ∈ l) :
    (l.filter q).length < (l.filter p).length := by
  induction l with
  | nil => cases hx
  | cons a l ih =>
    rcases List.mem_cons.mp hx with rfl | hmem
    · simp only [List.filter_cons, hqx, hpx, Bool.false_eq_true, if_false,
        if_true, List.length_cons]
      exact Nat.lt_succ_of_le (length_filter_le_of_imp p q h l)
    · by_cases hq : q a = true
      · simp only [List.filter_cons, hq, h a hq, if_true, List.length_cons]
        exact Nat.succ_lt_succ (ih hmem)
      · have hq' : q a = false := by revert hq; cases q a <;> simp
        by_cases hp : p a = true
        · simp only [List.filter_cons, hq', hp, Bool.false_eq_true, if_false,
            if_true, List.length_cons]
          exact Nat.lt_succ_of_lt (ih hmem)
        · have hp' : p a = false := by revert hp; cases p a <;> simp
          simp only [List.filter_cons, hq', hp', Bool.false_eq_true, if_false]
          exact ih hmem

/-- A key with a value is among the association-list keys. -/
theorem mem_keys_of_getAssoc {β : Type} :
    ∀ (m : List (String × β)) (k : String) (v : β),
      getAssoc m k = some v → k ∈ m.map Prod.fst
  | [], k, v, h => by rw [getAssoc] at h; cases h
  | p :: m, k, v, h => by
    rw [List.map_cons]
    by_cases hp : p.1 = k
    · exact hp ▸ List.mem_cons_self _ _
    · rw [getAssoc, if_neg hp] at h
      exact List.mem_cons.mpr (Or.inr (mem_keys_of_getAssoc m k v h))

/-- Entering an unvisited pool key strictly shrinks the termination measure. -/
theorem unvisitedCount_lt_of_get (m : CustomFieldMap) (visited : List String)
    (c : String) (d : MicroCMSCustomFieldDefinition)
    (h1 : visited.contains c = false) (h2 : getAssoc m c = some d) :
    unvisitedCount m (c :: visited) < unvisitedCount m visited := by
  have hc : c ∈ m.map Prod.fst := mem_keys_of_getAssoc m c d h2
  unfold unvisitedCount
  exact length_filter_lt_of_witness _ _
    (by intro a ha
        have h' : visited.contains a = false := by
          revert ha
          simp only [List.contains_cons]
          cases a == c <;> cases visited.contains a <;> simp
        rw [h']; rfl)
    c (by rw [h1]; rfl) (by simp) (m.map Prod.fst) hc

/-- Core resolver (`resolveCustomField`): cycle check, pool lookup, branch-
scoped path extension, and assembly of the definition's field list. -/
def resolveCustomField (createdAt : String) (customFieldMap : CustomFieldMap)
    (visited : List String) (options : Option ToJsonSchemaOptions) :
    Option Json :=
  if h1 : visited.contains createdAt then
    some untypedObjectSchema
  else
    match h2 : getAssoc customFieldMap createdAt with
    | none => none
    | some d =>
      let nextVisited := createdAt :: visited
      let acc := assembleFields
        (fun c => resolveCustomField c customFieldMap nextVisited options)
        d.fields options
      some (Json.obj
        ([("type", Json.str "object"), ("properties", Json.obj acc.1)]
         ++ (if acc.2.length > 0
             then [("required", Json.arr (acc.2.map Json.str))]
             else [])))
termination_by unvisitedCount customFieldMap visited
decreasing_by
  exact unvisitedCount_lt_of_get customFieldMap visited createdAt d
    (by revert h1; cases visited.contains createdAt <;> simp) h2

/-- Source `convertField`: per-kind conversion with the resolver closed over
the pool, path, and options. -/
def convertField (field : MicroCMSField) (customFieldMap : CustomFieldMap)
    (visited : List String) (options : Option ToJsonSchemaOptions) : Json :=
  convertFieldAux
    (fun c => resolveCustomField c customFieldMap visited options)
    field options

/-- Source `convertRepeater`. -/
def convertRepeater (createdAtList : List String)
    (customFieldMap : CustomFieldMap) (visited : List String)
    (options : Option ToJsonSchemaOptions) : Json :=
  convertRepeaterAux
    (fun c => resolveCustomField c customFieldMap visited options)
    createdAtList

/-- Source `convertCustom`. -/
def convertCustom (createdAt : String) (customFieldMap : CustomFieldMap)
    (visited : List String) (options : Option ToJsonSchemaOptions) : Json :=
  convertCustomAux
    (fun c => resolveCustomField c customFieldMap visited options)
    createdAt

/-- Entry point `toJsonSchema`: build the pool, convert every top-level field
with an empty path, and wrap the result in the draft-07 envelope. -/
def toJsonSchema (schema : MicroCMSApiSchema)
    (options : Option ToJsonSchemaOptions) : Json :=
  let customFieldMap := buildCustomFieldMap schema.customFields
  let acc := assembleFields
    (fun c => resolveCustomField c customFieldMap [] options)
    schema.apiFields options
  Json.obj
    ([("$schema", Json.str "http://json-schema.org/draft-07/schema#"),
      ("type", Json.str "object"),
      ("properties", Json.obj acc.1)]
     ++ (if jsTruthyString (optTitle options)
         then [("title", Json.str ((optTitle options).getD ""))]
         else [])
     ++ (if acc.2.length > 0
         then [("required", Json.arr (acc.2.map Json.str))]
         else []))

/-- Entry point `bundleToJsonSchema`: convert every entry with its endpoint
name as title, assigning into a record keyed by endpoint. -/
def bundleToJsonSchema (bundle : MicroCMSSchemaBundle) :
    List (String × Json) :=
  bundle.apis.foldl
    (fun result entry =>
      setAssoc result entry.endpoint
        (toJsonSchema entry.api
          (some { title := some entry.endpoint, includeExtensions := none })))
    []

/-- Fuel-bounded variant of `resolveCustomField`: identical body, but each
nested resolution consumes one unit of an explicit depth budget. It makes
the resolver's recursion depth observable and kernel-evaluable. -/
def resolveCustomFieldFuel : Nat → String → CustomFieldMap → List String →
    Option ToJsonSchemaOptions → Option Json
  | 0, _, _, _, _ => none
  | fuel + 1, createdAt, customFieldMap, visited, options =>
    if visited.contains createdAt then
      some untypedObjectSchema
    else
      match getAssoc customFieldMap createdAt with
      | none => none
      | some d =>
        let nextVisited := createdAt :: visited
        let acc := assembleFields
          (fun c => resolveCustomFieldFuel fuel c customFieldMap nextVisited options)
          d.fields options
        some (Json.obj
          ([("type", Json.str "object"), ("properties", Json.obj acc.1)]
           ++ (if acc.2.length > 0
               then [("required", Json.arr (acc.2.map Json.str))]
               else [])))

/-- Cycle branch of the resolver. -/
theorem resolveCustomField_of_contains (createdAt : String)
    (m : CustomFieldMap) (visited : List String)
    (options : Option ToJsonSchemaOptions)
    (h1 : visited.contains createdAt = true) :
    resolveCustomField createdAt m visited options = some untypedObjectSchema := by
  have hm : createdAt ∈ visited := by simpa using h1
  unfold resolveCustomField
  simp [hm]

/-- Missing-definition branch of the resolver. -/
theorem resolveCustomField_of_none (createdAt : String) (m : CustomFieldMap)
    (visited : List String) (options : Option ToJsonSchemaOptions)
    (h1 : visited.contains createdAt = false)
    (h2 : getAssoc m createdAt = none) :
    resolveCustomField createdAt m visited options = none := by
  conv_lhs => unfold resolveCustomField
  rw [dif_neg (by simpa using h1)]
  split
  · rfl
  · next d heq => rw [h2] at heq; exact Option.noConfusion heq

/-- Success branch of the resolver: extend the path and assemble the
definition's field list. -/
theorem resolveCustomField_of_get (createdAt : String) (m : CustomFieldMap)
    (visited : List String) (options : Option ToJsonSchemaOptions)
    (d : MicroCMSCustomFieldDefinition)
    (h1 : visited.contains createdAt = false)
    (h2 : getAssoc m createdAt = some d) :
    resolveCustomField createdAt m visited options =
      some (Json.obj
        ([("type", Json.str "object"),
          ("properties", Json.obj
            (assembleFields
              (fun c => resolveCustomField c m (createdAt :: visited) options)
              d.fields options).1)]
         ++ (if (assembleFields
              (fun c => resolveCustomField c m (createdAt :: visited) options)
              d.fields options).2.length > 0
             then [("required", Json.arr
               ((assembleFields
                 (fun c => resolveCustomField c m (createdAt :: visited) options)
                 d.fields options).2.map Json.str))]
             else []))) := by
  conv_lhs => unfold resolveCustomField
  rw [dif_neg (by simpa using h1)]
  split
  · next heq => rw [h2] at heq; exact Option.noConfusion heq
  · next d' heq =>
    rw [h2] at heq
    injection heq with hd
    subst hd
    rfl

/-- With fuel exceeding the number of unvisited pool keys, the fuel-bounded
resolver agrees with the resolver. -/
theorem resolveCustomFieldFuel_eq (fuel : Nat) :
    ∀ (createdAt : String) (m : CustomFieldMap) (visited : List String)
      (options : Option ToJsonSchemaOptions),
      unvisitedCount m visited < fuel →
      resolveCustomFieldFuel fuel createdAt m visited options =
        resolveCustomField createdAt m visited options := by
  induction fuel with
  | zero => intro _ _ _ _ h; exact absurd h (Nat.not_lt_zero _)
  | succ n ih =>
    intro createdAt m visited options h
    by_cases h1 : visited.contains createdAt = true
    · have hm : createdAt ∈ visited := by simpa using h1
      rw [resolveCustomField_of_contains createdAt m visited options h1]
      simp [resolveCustomFieldFuel, hm]
    · have h1' : visited.contains createdAt = false := by
        revert h1; cases visited.contains createdAt <;> simp
      cases h2 : getAssoc m createdAt with
      | none =>
        have hm : createdAt ∉ visited := by simpa using h1'
        rw [resolveCustomField_of_none createdAt m visited options h1' h2]
        simp [resolveCustomFieldFuel, hm, h2]
      | some d =>
        rw [resolveCustomField_of_get createdAt m visited options d h1' h2]
        have hlt : unvisitedCount m (createdAt :: visited) < n :=
          Nat.lt_of_lt_of_le
            (unvisitedCount_lt_of_get m visited createdAt d h1' h2)
            (Nat.lt_succ_iff.mp h)
        have hres : (fun c => resolveCustomFieldFuel n c m (createdAt :: visited) options)
            = (fun c => resolveCustomField c m (createdAt :: visited) options) :=
          funext (fun c => ih c m (createdAt :: visited) options hlt)
        have hm : createdAt ∉ visited := by simpa using h1'
        simp only [resolveCustomFieldFuel, h2]
        rw [hres]
        simp [hm]

/-- The measure never exceeds the pool size. -/
theorem unvisitedCount_le_length (m : CustomFieldMap) (visited : List String) :
    unvisitedCount m visited ≤ m.length := by
  unfold unvisitedCount
  exact le_trans (List.length_filter_le _ _) (le_of_eq (List.length_map _ _))

/-- Evaluation form of the resolver: fuel one past the measure suffices. -/
theorem resolveCustomField_eval (createdAt : String) (m : CustomFieldMap)
    (visited : List String) (options : Option ToJsonSchemaOptions) :
    resolveCustomField createdAt m visited options =
      resolveCustomFieldFuel (unvisitedCount m visited + 1) createdAt m
        visited options :=
  (resolveCustomFieldFuel_eq _ _ _ _ _ (Nat.lt_succ_self _)).symm

/-- Fuel-bounded counterpart of `convertField`. -/
def convertFieldFuel (fuel : Nat) (field : MicroCMSField)
    (customFieldMap : CustomFieldMap) (visited : List String)
    (options : Option ToJsonSchemaOptions) : Json :=
  convertFieldAux
    (fun c => resolveCustomFieldFuel fuel c customFieldMap visited options)
    field options

/-- With fuel exceeding the measure, `convertFieldFuel` agrees with
`convertField`. -/
theorem convertFieldFuel_eq (fuel : Nat) (field : MicroCMSField)
    (m : CustomFieldMap) (visited : List String)
    (options : Option ToJsonSchemaOptions)
    (h : unvisitedCount m visited < fuel) :
    convertFieldFuel fuel field m visited options =
      convertField field m visited options := by
  unfold convertFieldFuel convertField
  have hres : (fun c => resolveCustomFieldFuel fuel c m visited options)
      = (fun c => resolveCustomField c m visited options) :=
    funext (fun c => resolveCustomFieldFuel_eq fuel c m visited options h)
  rw [hres]

/-- Fuel-bounded counterpart of `toJsonSchema`, with fuel one past the pool
size; used to evaluate the entry point on concrete inputs. -/
def toJsonSchemaFuel (schema : MicroCMSApiSchema)
    (options : Option ToJsonSchemaOptions) : Json :=
  let customFieldMap := buildCustomFieldMap schema.customFields
  let acc := assembleFields
    (fun c => resolveCustomFieldFuel (customFieldMap.length + 1) c
      customFieldMap [] options)
    schema.apiFields options
  Json.obj
    ([("$schema", Json.str "http://json-schema.org/draft-07/schema#"),
      ("type", Json.str "object"),
      ("properties", Json.obj acc.1)]
     ++ (if jsTruthyString (optTitle options)
         then [("title", Json.str ((optTitle options).getD ""))]
         else [])
     ++ (if acc.2.length > 0
         then [("required", Json.arr (acc.2.map Json.str))]
         else []))

/-- The entry point agrees with its fuel-bounded counterpart. -/
theorem toJsonSchema_eval (schema : MicroCMSApiSchema)
    (options : Option ToJsonSchemaOptions) :
    toJsonSchema schema options = toJsonSchemaFuel schema options := by
  simp only [toJsonSchema, toJsonSchemaFuel]
  have hres : (fun c => resolveCustomFieldFuel
        ((buildCustomFieldMap schema.customFields).length + 1) c
        (buildCustomFieldMap schema.customFields) [] options)
      = (fun c => resolveCustomField c
        (buildCustomFieldMap schema.customFields) [] options) :=
    funext (fun c => resolveCustomFieldFuel_eq _ c _ [] options
      (Nat.lt_succ_of_le (unvisitedCount_le_length _ _)))
  rw [hres]

/-- Pair-accumulator fold splits into two independent folds. -/
theorem foldl_pair {α β γ : Type} (f : β → α → β) (g : γ → α → γ)
    (l : List α) (b : β) (c : γ) :
    l.foldl (fun acc a => (f acc.1 a, g acc.2 a)) (b, c) =
      (l.foldl f b, l.foldl g c) := by
  induction l generalizing b c with
  | nil => rfl
  | cons a l ih => exact ih (f b a) (g c a)

/-- Conditional-push fold is filter-then-map. -/
theorem foldl_push_filter {α β : Type} (p : α → Bool) (f : α → β)
    (l : List α) (init : List β) :
    l.foldl (fun acc a => if p a then acc ++ [f a] else acc) init =
      init ++ (l.filter p).map f := by
  induction l generalizing init with
  | nil => simp
  | cons a l ih =>
    by_cases hp : p a = true
    · simp only [List.foldl_cons, hp, if_true, List.filter_cons]
      rw [ih]
      simp
    · have hp' : p a = false := by revert hp; cases p a <;> simp
      simp only [List.foldl_cons, hp', List.filter_cons, Bool.false_eq_true,
        if_false]
      exact ih init

/-- Option-push fold is `filterMap`. -/
theorem foldl_option_push {α β : Type} (r : α → Option β)
    (l : List α) (init : List β) :
    l.foldl
      (fun acc a => match r a with | some x => acc ++ [x] | none => acc)
      init = init ++ l.filterMap r := by
  induction l generalizing init with
  | nil => simp
  | cons a l ih =>
    cases hr : r a with
    | none => simp only [List.foldl_cons, hr, List.filterMap_cons, ih]
    | some x =>
      simp only [List.foldl_cons, hr, List.filterMap_cons]
      rw [ih]
      simp

/-- Reading a cons cell of an association list. -/
theorem getAssoc_cons {β : Type} (p : String × β) (m : List (String × β))
    (k : String) :
    getAssoc (p :: m) k = if p.1 = k then some p.2 else getAssoc m k := by
  rw [getAssoc]

/-- `setAssoc` appends when the key is fresh. -/
theorem setAssoc_fresh {β : Type} (m : List (String × β)) (k : String) (v : β)
    (h : hasKey m k = false) :
    setAssoc m k v = m ++ [(k, v)] := by
  unfold setAssoc
  rw [h]
  simp

/-- A key is present exactly when it is among the keys. -/
theorem hasKey_iff_mem_keys {β : Type} :
    ∀ (m : List (String × β)) (k : String),
      hasKey m k = true ↔ k ∈ m.map Prod.fst
  | [], k => by simp [hasKey]
  | p :: m, k => by
    rw [hasKey, List.map_cons]
    simp only [Bool.or_eq_true, decide_eq_true_eq, List.mem_cons]
    constructor
    · rintro (h | h)
      · exact Or.inl h.symm
      · exact Or.inr ((hasKey_iff_mem_keys m k).mp h)
    · rintro (h | h)
      · exact Or.inl h.symm
      · exact Or.inr ((hasKey_iff_mem_keys m k).mpr h)

/-- An absent key reads as `none`. -/
theorem getAssoc_eq_none_of_hasKey {β : Type} :
    ∀ (m : List (String × β)) (k : String), hasKey m k = false →
      getAssoc m k = none
  | [], _, _ => rfl
  | p :: m, k, h => by
    rw [hasKey] at h
    simp only [Bool.or_eq_false_iff, decide_eq_false_iff_not] at h
    rw [getAssoc, if_neg h.1]
    exact getAssoc_eq_none_of_hasKey m k h.2

/-- A present key reads as `some`. -/
theorem getAssoc_isSome_of_hasKey {β : Type} :
    ∀ (m : List (String × β)) (k : String), hasKey m k = true →
      ∃ q, getAssoc m k = some q
  | [], k, h => by rw [hasKey] at h; cases h
  | p :: m, k, h => by
    by_cases hp : p.1 = k
    · exact ⟨p.2, by rw [getAssoc, if_pos hp]⟩
    · rw [hasKey] at h
      simp only [Bool.or_eq_true, decide_eq_true_eq] at h
      rcases h with h | h
      · exact absurd h hp
      · obtain ⟨q, hq⟩ := getAssoc_isSome_of_hasKey m k h
        exact ⟨q, by rw [getAssoc, if_neg hp]; exact hq⟩

/-- Appending an entry for a different key does not change a read. -/
theorem getAssoc_append_single {β : Type} (k k' : String) (v : β)
    (hk : k' ≠ k) : ∀ (m : List (String × β)),
      getAssoc (m ++ [(k, v)]) k' = getAssoc m k'
  | [] => by
    rw [List.nil_append, getAssoc_cons, if_neg (fun h => hk h.symm)]
  | p :: m => by
    rw [List.cons_append, getAssoc_cons, getAssoc_cons]
    by_cases hp : p.1 = k'
    · rw [if_pos hp, if_pos hp]
    · rw [if_neg hp, if_neg hp]
      exact getAssoc_append_single k k' v hk m

/-- Appending an entry for a previously absent key makes it readable. -/
theorem getAssoc_append_single_self {β : Type} (k : String) (v : β) :
    ∀ (m : List (String × β)), getAssoc m k = none →
      getAssoc (m ++ [(k, v)]) k = some v
  | [], _ => by rw [List.nil_append, getAssoc_cons, if_pos rfl]
  | p :: m, h => by
    rw [getAssoc_cons] at h
    by_cases hp : p.1 = k
    · rw [if_pos hp] at h; cases h
    · rw [if_neg hp] at h
      rw [List.cons_append, getAssoc_cons, if_neg hp]
      exact getAssoc_append_single_self k v m h

/-- Reading the in-place-replacement list of `setAssoc`. -/
theorem getAssoc_replace {β : Type} (k k' : String) (v : β) :
    ∀ (m : List (String × β)),
      getAssoc (m.map (fun p => if p.1 = k then (k, v) else p)) k' =
        if k' = k then (getAssoc m k).map (fun _ => v) else getAssoc m k'
  | [] => by by_cases h : k' = k <;> simp [getAssoc, h]
  | p :: m => by
    rw [List.map_cons]
    by_cases hp : p.1 = k
    · rw [if_pos hp, getAssoc_cons, getAssoc_cons, getAssoc_cons]
      by_cases hk : k' = k
      · subst hk
        rw [if_pos rfl, if_pos rfl, if_pos hp]
        rfl
      · rw [if_neg (fun h => hk h.symm), if_neg hk,
          getAssoc_replace k k' v m, if_neg hk]
        have hp' : ¬ p.1 = k' := by rw [hp]; exact fun h => hk h.symm
        rw [if_neg hp']
    · rw [if_neg hp, getAssoc_cons, getAssoc_cons, getAssoc_cons,
        getAssoc_replace k k' v m]
      by_cases hk : k' = k
      · subst hk
        rw [if_pos rfl, if_pos rfl, if_neg hp, if_neg hp]
      · rw [if_neg hk, if_neg hk]

/-- Reading after a JS-style `set`: the set key returns the new value,
every other key is untouched. -/
theorem getAssoc_setAssoc {β : Type} (m : List (String × β)) (k k' : String)
    (v : β) :
    getAssoc (setAssoc m k v) k' = if k' = k then some v else getAssoc m k' := by
  unfold setAssoc
  by_cases hhas : hasKey m k = true
  · rw [if_pos hhas, getAssoc_replace]
    by_cases hk : k' = k
    · subst hk
      obtain ⟨q, hq⟩ := getAssoc_isSome_of_hasKey m k' hhas
      rw [if_pos rfl, if_pos rfl, hq]
      rfl
    · rw [if_neg hk, if_neg hk]
  · have hhas' : hasKey m k = false := by
      revert hhas; cases hasKey m k <;> simp
    rw [if_neg hhas]
    by_cases hk : k' = k
    · subst hk
      rw [if_pos rfl]
      exact getAssoc_append_single_self k' v m
        (getAssoc_eq_none_of_hasKey m k' hhas')
    · rw [if_neg hk]
      exact getAssoc_append_single k k' v hk m

/-- Keys after a JS-style `set`. -/
theorem keys_setAssoc {β : Type} (m : List (String × β)) (k : String)
    (v : β) :
    (setAssoc m k v).map Prod.fst =
      if hasKey m k then m.map Prod.fst else m.map Prod.fst ++ [k] := by
  unfold setAssoc
  by_cases h : hasKey m k = true
  · rw [if_pos h, if_pos h, List.map_map]
    apply List.map_congr_left
    intro p _
    by_cases hp : p.1 = k
    · simp [Function.comp, hp]
    · simp [Function.comp, hp]
  · rw [if_neg h, if_neg h]
    simp

/-- `setAssoc` preserves distinctness of keys. -/
theorem keys_nodup_setAssoc {β : Type} (m : List (String × β)) (k : String)
    (v : β) (h : (m.map Prod.fst).Nodup) :
    ((setAssoc m k v).map Prod.fst).Nodup := by
  rw [keys_setAssoc]
  by_cases hhas : hasKey m k = true
  · rw [if_pos hhas]
    exact h
  · have hhas' : hasKey m k = false := by
      revert hhas; cases hasKey m k <;> simp
    rw [if_neg hhas]
    have hk : k ∉ m.map Prod.fst := fun hmem =>
      absurd ((hasKey_iff_mem_keys m k).mpr hmem) (by simp [hhas'])
    rw [List.nodup_append]
    exact ⟨h, List.nodup_singleton _,
      fun a ha hb => hk ((by simpa using hb : a = k) ▸ ha)⟩

/-- A fold of JS-style `set`s preserves distinctness of keys. -/
theorem keys_nodup_foldl_setAssoc {α β : Type} (key : α → String)
    (val : α → β) :
    ∀ (l : List α) (init : List (String × β)),
      (init.map Prod.fst).Nodup →
      ((l.foldl (fun acc a => setAssoc acc (key a) (val a)) init).map
        Prod.fst).Nodup
  | [], _, h => h
  | a :: l, init, h => by
    rw [List.foldl_cons]
    exact keys_nodup_foldl_setAssoc key val l _ (keys_nodup_setAssoc _ _ _ h)

/-- Reading after a fold of JS-style `set`s: the value of the last entry
bearing the key wins; otherwise the initial list is read. -/
theorem getAssoc_foldl_setAssoc {α β : Type} (key : α → String)
    (val : α → β) (k : String) :
    ∀ (l : List α) (init : List (String × β)),
      getAssoc (l.foldl (fun acc a => setAssoc acc (key a) (val a)) init) k =
        match l.reverse.find? (fun a => key a == k) with
        | some a => some (val a)
        | none => getAssoc init k
  | [], init => by simp
  | a :: l, init => by
    rw [List.foldl_cons, getAssoc_foldl_setAssoc key val k l _,
      List.reverse_cons, List.find?_append]
    cases hf : l.reverse.find? (fun a => key a == k) with
    | some b => simp [hf]
    | none =>
      simp only [hf, Option.none_or]
      rw [getAssoc_setAssoc]
      by_cases hk : k = key a
      · rw [if_pos hk]
        have hb : (key a == k) = true := by simp [hk]
        simp [List.find?, hb]
      · rw [if_neg hk]
        have hb : (key a == k) = false := by
          rw [beq_eq_false_iff_ne]
          exact fun h => hk h.symm
        simp [List.find?, hb]

/-- A fold of JS-style `set`s with pairwise-distinct fresh keys is a plain
append of the new entries in order. -/
theorem foldl_setAssoc_fresh {α β : Type} (key : α → String) (val : α → β) :
    ∀ (l : List α) (init : List (String × β)),
      (l.map key).Nodup →
      (∀ a ∈ l, ¬ key a ∈ init.map Prod.fst) →
      l.foldl (fun acc a => setAssoc acc (key a) (val a)) init =
        init ++ l.map (fun a => (key a, val a))
  | [], init, _, _ => by simp
  | a :: l, init, hnodup, hfresh => by
    rw [List.map_cons, List.nodup_cons] at hnodup
    have hmem0 : key a ∉ init.map Prod.fst := hfresh a (List.mem_cons_self a l)
    have hhas : hasKey init (key a) = false := by
      cases hh : hasKey init (key a) with
      | false => rfl
      | true => exact absurd ((hasKey_iff_mem_keys _ _).mp hh) hmem0
    rw [List.foldl_cons, setAssoc_fresh init (key a) (val a) hhas,
      foldl_setAssoc_fresh key val l (init ++ [(key a, val a)]) hnodup.2
        (fun b hb => by
          intro hmem
          rw [List.map_append, List.mem_append] at hmem
          rcases hmem with hmem | hmem
          · exact hfresh b (List.mem_cons_of_mem a hb) hmem
          · have hba : key b = key a := by simpa using hmem
            exact hnodup.1 (hba ▸ List.mem_map_of_mem key hb)),
      List.map_cons, List.append_assoc, List.singleton_append]

/-- The one-pass sibling-assembly loop, with general accumulators, splits
into the `properties` fold and the `required` filter. -/
theorem assemble_loop_eq (resolve : String → Option Json)
    (options : Option ToJsonSchemaOptions) :
    ∀ (fields : List MicroCMSField) (props : List (String × Json))
      (req : List String),
      fields.foldl
        (fun acc field =>
          (setAssoc acc.1 field.fieldId (convertFieldAux resolve field options),
           if field.required.getD false then acc.2 ++ [field.fieldId]
           else acc.2))
        (props, req) =
      (fields.foldl
        (fun acc field =>
          setAssoc acc field.fieldId (convertFieldAux resolve field options))
        props,
       req ++ (fields.filter (fun f => f.required.getD false)).map
         (fun f => f.fieldId))
  | [], props, req => by simp
  | f :: fields, props, req => by
    by_cases hr : f.required.getD false = true
    · simp only [List.foldl_cons, hr, if_true, List.filter_cons,
        assemble_loop_eq resolve options fields]
      simp
    · have hr' : f.required.getD false = false := by
        revert hr; cases f.required.getD false <;> simp
      simp only [List.foldl_cons, hr', Bool.false_eq_true, if_false,
        List.filter_cons, assemble_loop_eq resolve options fields]

/-- `assembleFields` as the `properties` fold plus the `required` filter. -/
theorem assembleFields_eq (resolve : String → Option Json)
    (fields : List MicroCMSField) (options : Option ToJsonSchemaOptions) :
    assembleFields resolve fields options =
      (fields.foldl
        (fun acc field =>
          setAssoc acc field.fieldId (convertFieldAux resolve field options))
        [],
       (fields.filter (fun f => f.required.getD false)).map
         (fun f => f.fieldId)) := by
  unfold assembleFields
  rw [assemble_loop_eq]
  simp

/-- The `required` component of the assembly. -/
theorem assembleFields_required_eq (resolve : String → Option Json)
    (fields : List MicroCMSField) (options : Option ToJsonSchemaOptions) :
    (assembleFields resolve fields options).2 =
      (fields.filter (fun f => f.required.getD false)).map
        (fun f => f.fieldId) := by
  rw [assembleFields_eq]

/-- With pairwise-distinct field identifiers, the assembled `properties`
object is the field list mapped to (identifier, converted schema) pairs in
the original order. -/
theorem assembleFields_props_of_nodup (resolve : String → Option Json)
    (fields : List MicroCMSField) (options : Option ToJsonSchemaOptions)
    (h : (fields.map (fun f => f.fieldId)).Nodup) :
    (assembleFields resolve fields options).1 =
      fields.map (fun f => (f.fieldId, convertFieldAux resolve f options)) := by
  rw [assembleFields_eq]
  rw [foldl_setAssoc_fresh (fun f => f.fieldId)
    (fun f => convertFieldAux resolve f options) fields [] h (by simp)]
  simp

/-- The repeater accumulator loop, from any accumulator, appends exactly the
successfully resolved schemas in order. -/
theorem foldl_repeaterPush (resolve : String → Option Json) :
    ∀ (l : List String) (init : List Json),
      l.foldl (repeaterPush resolve) init = init ++ l.filterMap resolve
  | [], init => by simp
  | c :: l, init => by
    cases hr : resolve c with
    | none =>
      rw [List.foldl_cons, foldl_repeaterPush resolve l]
      simp [repeaterPush, List.filterMap_cons, hr]
    | some x =>
      rw [List.foldl_cons, foldl_repeaterPush resolve l]
      simp [repeaterPush, List.filterMap_cons, hr]

/-- The repeater accumulator loop is `filterMap`. -/
theorem repeaterSchemas_eq_filterMap (resolve : String → Option Json)
    (createdAtList : List String) :
    repeaterSchemas resolve createdAtList = createdAtList.filterMap resolve := by
  unfold repeaterSchemas
  exact (foldl_repeaterPush resolve createdAtList []).trans (by simp)

/-- Reading a concatenation of association lists. -/
theorem getAssoc_append {β : Type} (k : String) :
    ∀ (m1 m2 : List (String × β)),
      getAssoc (m1 ++ m2) k =
        (match getAssoc m1 k with
         | some v => some v
         | none => getAssoc m2 k)
  | [], _ => rfl
  | p :: m1, m2 => by
    rw [List.cons_append, getAssoc_cons, getAssoc_cons]
    by_cases hp : p.1 = k
    · rw [if_pos hp, if_pos hp]
    · rw [if_neg hp, if_neg hp, getAssoc_append k m1 m2]

/-- The number of successful resolutions equals the number of identifiers
whose resolution succeeds. -/
theorem length_filterMap_eq_length_filter {α β : Type} (r : α → Option β) :
    ∀ (l : List α),
      (l.filterMap r).length = (l.filter (fun a => (r a).isSome)).length
  | [] => rfl
  | a :: l => by
    cases hr : r a with
    | none =>
      simp [List.filterMap_cons, List.filter_cons, hr,
        length_filterMap_eq_length_filter r l]
    | some x =>
      simp [List.filterMap_cons, List.filter_cons, hr,
        length_filterMap_eq_length_filter r l]

/-- Looking up a mapped pair list with pairwise-distinct keys finds each
element's own value. -/
theorem getAssoc_map_of_nodup {α β : Type} (key : α → String) (val : α → β) :
    ∀ (l : List α), (l.map key).Nodup → ∀ a ∈ l,
      getAssoc (l.map (fun x => (key x, val x))) (key a) = some (val a)
  | [], _, a, ha => absurd ha (List.not_mem_nil a)
  | x :: l, hnodup, a, ha => by
    rw [List.map_cons, List.nodup_cons] at hnodup
    rw [List.map_cons, getAssoc_cons]
    rcases List.mem_cons.mp ha with rfl | hmem
    · rw [if_pos rfl]
    · by_cases hx : key x = key a
      · exact absurd (hx ▸ List.mem_map_of_mem key hmem) hnodup.1
      · rw [if_neg hx]
        exact getAssoc_map_of_nodup key val l hnodup.2 a hmem

/-- The `required` key of the envelope: present exactly when some top-level
field is required, holding the filtered identifiers in order. -/
theorem toJsonSchema_required_key (schema : MicroCMSApiSchema)
    (options : Option ToJsonSchemaOptions) :
    objGet (toJsonSchema schema options) "required" =
      (match (schema.apiFields.filter (fun f => f.required.getD false)).map
          (fun f => f.fieldId) with
       | [] => none
       | req => some (Json.arr (req.map Json.str))) := by
  simp only [toJsonSchema, objGet]
  have hA : ∀ (z : Json), getAssoc
      [("$schema", Json.str "http://json-schema.org/draft-07/schema#"),
       ("type", Json.str "object"), ("properties", z)] "required" = none :=
    fun z => rfl
  rw [getAssoc_append, getAssoc_append, hA]
  have htitle : getAssoc
      (if jsTruthyString (optTitle options) = true
       then [("title", Json.str ((optTitle options).getD ""))] else [])
      "required" = none := by
    split <;> simp [getAssoc]
  rw [htitle, assembleFields_required_eq]
  cases hL : (schema.apiFields.filter (fun f => f.required.getD false)).map
      (fun f => f.fieldId) with
  | nil => simp [getAssoc]
  | cons a rest => simp [getAssoc]

/-- Concrete text field used by the witness checks. -/
def sampleTextField (i : String) (req : Option Bool) : MicroCMSField :=
  { fieldId := i, name := i, required := req, description := none,
    kind := FieldKind.text none }

/-- Concrete reusable definition with one required and one optional field. -/
def defGrp : MicroCMSCustomFieldDefinition :=
  { createdAt := "grp", fieldId := "grp", name := "Group",
    fields := [sampleTextField "req1" (some true),
               sampleTextField "opt1" none] }

/-- Concrete pool holding `defGrp`. -/
def poolGrp : CustomFieldMap := buildCustomFieldMap (some [defGrp])

/-- Concrete API schema with two required and one optional text field. -/
def sampleSchema : MicroCMSApiSchema :=
  { apiFields := [sampleTextField "title" (some true),
                  sampleTextField "body" none,
                  sampleTextField "slug" (some true)],
    customFields := none }

/-- First of two reusable definitions sharing the identifier `dup`. -/
def defDup1 : MicroCMSCustomFieldDefinition :=
  { createdAt := "dup", fieldId := "one", name := "One",
    fields := [sampleTextField "a" none] }

/-- Second of two reusable definitions sharing the identifier `dup`. -/
def defDup2 : MicroCMSCustomFieldDefinition :=
  { createdAt := "dup", fieldId := "two", name := "Two",
    fields := [sampleTextField "b" (some true)] }

/-- C1: resolving a reusable-definition identifier that is already on the
current resolution path returns the minimal untyped object schema
immediately — for every pool, path, and options, with no error outcome and
no dependence on the definition's content. -/
theorem C1_cycle_returns_untyped_object (createdAt : String)
    (customFieldMap : CustomFieldMap) (visited : List String)
    (options : Option ToJsonSchemaOptions)
    (h : visited.contains createdAt = true) :
    resolveCustomField createdAt customFieldMap visited options =
      some (Json.obj [("type", Json.str "object")]) :=
  resolveCustomField_of_contains createdAt customFieldMap visited options h

/-- Witness for C1 at a concrete cycle: identifier `grp` is on the path and
its resolution (in the very pool that defines it) is the untyped object. -/
theorem C1_cycle_returns_untyped_object_witness :
    (["grp"] : List String).contains "grp" = true ∧
    resolveCustomField "grp" poolGrp ["grp"] none =
      some (Json.obj [("type", Json.str "object")]) :=
  ⟨rfl, C1_cycle_returns_untyped_object "grp" poolGrp ["grp"] none rfl⟩

/-- C4: conversion terminates with recursion depth bounded by pool size:
the fuel-bounded converter, given fuel pool-size + 1 (one unit per distinct
pool identifier, plus the initial call), coincides with the converter on an
empty initial path — for every field, pool (including self-referential and
mutually-referential ones), and options. -/
theorem C4_conversion_depth_bounded_by_pool_size (field : MicroCMSField)
    (customFieldMap : CustomFieldMap)
    (options : Option ToJsonSchemaOptions) :
    convertFieldFuel (customFieldMap.length + 1) field customFieldMap []
      options = convertField field customFieldMap [] options :=
  convertFieldFuel_eq _ _ _ _ _
    (Nat.lt_succ_of_le (unvisitedCount_le_length _ _))

/-- C5: resolution-path extensions are value-scoped per branch: in the
repeater's accumulator, every listed identifier contributes exactly its own
stand-alone resolution from the shared initial path, unaffected by the
identifiers before or after it. -/
theorem C5_sibling_resolutions_independent (m : CustomFieldMap)
    (visited : List String) (options : Option ToJsonSchemaOptions)
    (l₁ l₂ : List String) (c : String) :
    repeaterSchemas
        (fun x => resolveCustomField x m visited options) (l₁ ++ c :: l₂) =
      repeaterSchemas (fun x => resolveCustomField x m visited options) l₁
        ++ (resolveCustomField c m visited options).toList
        ++ repeaterSchemas (fun x => resolveCustomField x m visited options)
             l₂ := by
  rw [repeaterSchemas_eq_filterMap, repeaterSchemas_eq_filterMap,
    repeaterSchemas_eq_filterMap, List.filterMap_append]
  cases hr : resolveCustomField c m visited options with
  | none => simp [List.filterMap_cons, hr, Option.toList]
  | some s => simp [List.filterMap_cons, hr, Option.toList]

/-- C7: a single-composite field whose identifier is absent from the pool
converts to the untyped object schema; no error outcome exists. -/
theorem C7_missing_definition_untyped_fallback (createdAt : String)
    (m : CustomFieldMap) (visited : List String)
    (options : Option ToJsonSchemaOptions)
    (h : getAssoc m createdAt = none) :
    convertCustom createdAt m visited options =
      Json.obj [("type", Json.str "object")] := by
  unfold convertCustom convertCustomAux
  show (resolveCustomField createdAt m visited options).getD
    untypedObjectSchema = Json.obj [("type", Json.str "object")]
  by_cases h1 : visited.contains createdAt = true
  · rw [resolveCustomField_of_contains createdAt m visited options h1]
    rfl
  · have h1' : visited.contains createdAt = false := by
      revert h1; cases visited.contains createdAt <;> simp
    rw [resolveCustomField_of_none createdAt m visited options h1' h]
    rfl

/-- Witness for C7: the identifier `missing` is absent from the empty pool
and converts to the untyped object schema. -/
theorem C7_missing_definition_untyped_fallback_witness :
    getAssoc ([] : CustomFieldMap) "missing" = none ∧
    convertCustom "missing" [] [] none =
      Json.obj [("type", Json.str "object")] :=
  ⟨rfl, C7_missing_definition_untyped_fallback "missing" [] [] none rfl⟩

/-- C2: a repeater resolves each listed identifier against the current path,
drops the failures, and emits a bare array schema for zero successes, a
plain `items` schema for exactly one, and an array whose `items` is a
`oneOf` of the successes in original listing order for two or more; the
number of successes equals the number of identifiers that resolve. -/
theorem C2_repeater_assembly (createdAtList : List String)
    (customFieldMap : CustomFieldMap) (visited : List String)
    (options : Option ToJsonSchemaOptions) :
    convertRepeater createdAtList customFieldMap visited options =
      (match createdAtList.filterMap
          (fun c => resolveCustomField c customFieldMap visited options) with
       | [] => Json.obj [("type", Json.str "array")]
       | [s] => Json.obj [("type", Json.str "array"), ("items", s)]
       | schemas => Json.obj [("type", Json.str "array"),
           ("items", Json.obj [("oneOf", Json.arr schemas)])]) ∧
    (createdAtList.filterMap
        (fun c => resolveCustomField c customFieldMap visited options)).length
      = (createdAtList.filter
          (fun c =>
            (resolveCustomField c customFieldMap visited options).isSome)).length := by
  constructor
  · unfold convertRepeater convertRepeaterAux
    rw [repeaterSchemas_eq_filterMap]
  · exact length_filterMap_eq_length_filter _ createdAtList

/-- C3: resolving an identifier that is in the pool and not on the current
path yields an object schema assembled from the definition's field list
exactly as the top-level assembler does — ordered `properties` entries, one
per field in original order, each converted against the extended path, plus
the filtered `required` list (omitted when empty) — and, when the field
identifiers are pairwise distinct, the properties map sends each field's
identifier to that field's converted schema. -/
theorem C3_resolution_assembles_definition (createdAt : String)
    (m : CustomFieldMap) (visited : List String)
    (options : Option ToJsonSchemaOptions)
    (d : MicroCMSCustomFieldDefinition)
    (h1 : visited.contains createdAt = false)
    (h2 : getAssoc m createdAt = some d)
    (h3 : (d.fields.map (fun f => f.fieldId)).Nodup) :
    resolveCustomField createdAt m visited options =
      some (Json.obj
        ([("type", Json.str "object"),
          ("properties", Json.obj
            (d.fields.map (fun f =>
              (f.fieldId, convertField f m (createdAt :: visited) options))))]
         ++ (if ((d.fields.filter (fun f => f.required.getD false)).map
               (fun f => f.fieldId)).length > 0
             then [("required", Json.arr
               (((d.fields.filter (fun f => f.required.getD false)).map
                 (fun f => f.fieldId)).map Json.str))]
             else []))) ∧
    ∀ f ∈ d.fields,
      getAssoc
          (d.fields.map (fun f =>
            (f.fieldId, convertField f m (createdAt :: visited) options)))
          f.fieldId
        = some (convertField f m (createdAt :: visited) options) := by
  constructor
  · rw [resolveCustomField_of_get createdAt m visited options d h1 h2,
      assembleFields_props_of_nodup _ _ _ h3, assembleFields_required_eq]
    simp only [convertField]
  · intro f hf
    exact getAssoc_map_of_nodup (fun f => f.fieldId)
      (fun f => convertField f m (createdAt :: visited) options)
      d.fields h3 f hf

/-- Witness for C3 at the concrete pool `poolGrp`: resolving `grp` from an
empty path assembles its two fields in order with the required list. -/
theorem C3_resolution_assembles_definition_witness :
    ([] : List String).contains "grp" = false ∧
    getAssoc poolGrp "grp" = some defGrp ∧
    (defGrp.fields.map (fun f => f.fieldId)).Nodup ∧
    resolveCustomField "grp" poolGrp [] none =
      some (Json.obj
        ([("type", Json.str "object"),
          ("properties", Json.obj
            (defGrp.fields.map (fun f =>
              (f.fieldId, convertField f poolGrp ["grp"] none))))]
         ++ (if ((defGrp.fields.filter (fun f => f.required.getD false)).map
               (fun f => f.fieldId)).length > 0
             then [("required", Json.arr
               (((defGrp.fields.filter (fun f => f.required.getD false)).map
                 (fun f => f.fieldId)).map Json.str))]
             else []))) ∧
    getAssoc
        (defGrp.fields.map (fun f =>
          (f.fieldId, convertField f poolGrp ["grp"] none)))
        "req1"
      = some (convertField (sampleTextField "req1" (some true)) poolGrp
          ["grp"] none) :=
  ⟨rfl, rfl, by decide,
    (C3_resolution_assembles_definition "grp" poolGrp [] none defGrp rfl rfl
      (by decide)).1,
    (C3_resolution_assembles_definition "grp" poolGrp [] none defGrp rfl rfl
      (by decide)).2 (sampleTextField "req1" (some true))
      (List.mem_cons_self _ _)⟩

/-- C6: wherever sibling fields are assembled into an object schema — the
assembly loop itself, the top-level envelope, and composite resolution —
the required list is exactly the required-flagged field identifiers in
their original relative order, and the `required` key is omitted entirely
(never an empty list) when that subset is empty. -/
theorem C6_required_list_assembly (resolve : String → Option Json)
    (fields : List MicroCMSField) (options : Option ToJsonSchemaOptions)
    (schema : MicroCMSApiSchema) (opts : Option ToJsonSchemaOptions)
    (createdAt : String) (m : CustomFieldMap) (visited : List String)
    (d : MicroCMSCustomFieldDefinition)
    (h1 : visited.contains createdAt = false)
    (h2 : getAssoc m createdAt = some d) :
    (assembleFields resolve fields options).2 =
      (fields.filter (fun f => f.required.getD false)).map
        (fun f => f.fieldId) ∧
    objGet (toJsonSchema schema opts) "required" =
      (match (schema.apiFields.filter (fun f => f.required.getD false)).map
          (fun f => f.fieldId) with
       | [] => none
       | req => some (Json.arr (req.map Json.str))) ∧
    ∃ j, resolveCustomField createdAt m visited opts = some j ∧
      objGet j "required" =
        (match (d.fields.filter (fun f => f.required.getD false)).map
            (fun f => f.fieldId) with
         | [] => none
         | req => some (Json.arr (req.map Json.str))) := by
  refine ⟨assembleFields_required_eq resolve fields options, ?_, ?_⟩
  · cases hL : (schema.apiFields.filter (fun f => f.required.getD false)).map
        (fun f => f.fieldId) with
    | nil => rw [toJsonSchema_required_key schema opts, hL]
    | cons a rest => rw [toJsonSchema_required_key schema opts, hL]
  · rw [resolveCustomField_of_get createdAt m visited opts d h1 h2]
    refine ⟨_, rfl, ?_⟩
    simp only [objGet]
    have hA : ∀ (z : Json), getAssoc
        [("type", Json.str "object"), ("properties", z)] "required" = none :=
      fun z => rfl
    rw [getAssoc_append, hA, assembleFields_required_eq]
    cases hL : (d.fields.filter (fun f => f.required.getD false)).map
        (fun f => f.fieldId) with
    | nil => simp [getAssoc]
    | cons a rest => simp [getAssoc]

/-- Witness for C6 on concrete inputs: the assembly loop collects the two
required identifiers in order, the envelope carries them, and the resolved
composite `grp` carries its single required identifier. -/
theorem C6_required_list_assembly_witness :
    ([] : List String).contains "grp" = false ∧
    getAssoc poolGrp "grp" = some defGrp ∧
    ((assembleFields (fun _ => none) sampleSchema.apiFields none).2 =
        ["title", "slug"] ∧
      objGet (toJsonSchema sampleSchema none) "required" =
        some (Json.arr [Json.str "title", Json.str "slug"]) ∧
      ∃ j, resolveCustomField "grp" poolGrp [] none = some j ∧
        objGet j "required" = some (Json.arr [Json.str "req1"])) :=
  ⟨rfl, rfl,
    C6_required_list_assembly (fun _ => none) sampleSchema.apiFields none
      sampleSchema none "grp" poolGrp [] defGrp rfl rfl⟩

/-- C8: the pool built from the input list is keyed by identifier with at
most one entry per identifier (its keys are pairwise distinct), lookup
returns the last entry bearing the identifier, a two-entry pool with a
duplicated identifier equals the pool of just the later entry, and
resolution of the duplicated identifier uses the later definition. -/
theorem C8_pool_keyed_last_wins (defs : List MicroCMSCustomFieldDefinition)
    (d₁ d₂ : MicroCMSCustomFieldDefinition) (visited : List String)
    (options : Option ToJsonSchemaOptions)
    (hdup : d₁.createdAt = d₂.createdAt) :
    ((buildCustomFieldMap (some defs)).map Prod.fst).Nodup ∧
    (∀ k, getAssoc (buildCustomFieldMap (some defs)) k =
      defs.reverse.find? (fun d => d.createdAt == k)) ∧
    buildCustomFieldMap (some [d₁, d₂]) = buildCustomFieldMap (some [d₂]) ∧
    resolveCustomField d₁.createdAt (buildCustomFieldMap (some [d₁, d₂]))
        visited options =
      resolveCustomField d₂.createdAt (buildCustomFieldMap (some [d₂]))
        visited options := by
  have h3 : buildCustomFieldMap (some [d₁, d₂]) =
      buildCustomFieldMap (some [d₂]) := by
    simp [buildCustomFieldMap, setAssoc, hasKey, hdup]
  refine ⟨?_, ?_, h3, ?_⟩
  · unfold buildCustomFieldMap
    exact keys_nodup_foldl_setAssoc (fun d => d.createdAt) (fun d => d)
      defs [] (by simp)
  · intro k
    unfold buildCustomFieldMap
    rw [getAssoc_foldl_setAssoc (fun d => d.createdAt) (fun d => d) k defs []]
    cases hf : defs.reverse.find? (fun d => d.createdAt == k) with
    | some d => simp [hf]
    | none => simp [hf, getAssoc]
  · rw [hdup, h3]

/-- Witness for C8: two definitions share the identifier `dup`; lookup
returns the later one and the two-entry pool equals the later-only pool. -/
theorem C8_pool_keyed_last_wins_witness :
    defDup1.createdAt = defDup2.createdAt ∧
    getAssoc (buildCustomFieldMap (some [defDup1, defDup2])) "dup" =
      some defDup2 ∧
    buildCustomFieldMap (some [defDup1, defDup2]) =
      buildCustomFieldMap (some [defDup2]) :=
  ⟨rfl,
    (C8_pool_keyed_last_wins [defDup1, defDup2] defDup1 defDup2 [] none
      rfl).2.1 "dup",
    (C8_pool_keyed_last_wins [defDup1, defDup2] defDup1 defDup2 [] none
      rfl).2.2.1⟩

/-- C9 fails as stated: a present-but-empty title option is dropped by the
JS truthiness check, so the envelope of this concrete call has no title key
even though a title option was supplied. -/
theorem C9_title_counterexample :
    ¬ objGet (toJsonSchema { apiFields := [], customFields := none }
        (some { title := some "", includeExtensions := none })) "title"
      = some (Json.str "") := by
  rw [toJsonSchema_eval]
  intro h
  have h' : (none : Option Json) = some (Json.str "") := h
  cases h'

/-- C9 amended: the envelope's title equals the supplied title whenever the
supplied title is a nonempty string; when no options, no title, or an
empty-string title is supplied, the envelope has no title key. -/
theorem C9_title_amended (schema : MicroCMSApiSchema)
    (options : Option ToJsonSchemaOptions) :
    objGet (toJsonSchema schema options) "title" =
      (match optTitle options with
       | some t => if t = "" then none else some (Json.str t)
       | none => none) := by
  simp only [toJsonSchema, objGet]
  have hA : ∀ (z : Json), getAssoc
      [("$schema", Json.str "http://json-schema.org/draft-07/schema#"),
       ("type", Json.str "object"), ("properties", z)] "title" = none :=
    fun z => rfl
  rw [getAssoc_append, getAssoc_append, hA]
  have hreq : ∀ (req : List String), getAssoc
      (if req.length > 0 then [("required", Json.arr (req.map Json.str))]
       else []) "title" = none := by
    intro req
    split <;> rfl
  rw [hreq]
  cases ho : optTitle options with
  | none => simp [jsTruthyString, getAssoc]
  | some t =>
    by_cases ht : t = ""
    · simp [jsTruthyString, ht, getAssoc]
    · simp [jsTruthyString, ht, getAssoc]

/-- C10: the record returned by the bundle conversion has pairwise-distinct
endpoint keys, and each key's value is the conversion — titled with the
endpoint — of the last bundle entry bearing that endpoint name; in this
pure model the input bundle is untouched by construction. -/
theorem C10_bundle_record_last_wins (bundle : MicroCMSSchemaBundle) :
    ((bundleToJsonSchema bundle).map Prod.fst).Nodup ∧
    ∀ e, getAssoc (bundleToJsonSchema bundle) e =
      (bundle.apis.reverse.find? (fun entry => entry.endpoint == e)).map
        (fun entry => toJsonSchema entry.api
          (some { title := some entry.endpoint, includeExtensions := none })) := by
  constructor
  · unfold bundleToJsonSchema
    exact keys_nodup_foldl_setAssoc (fun entry => entry.endpoint)
      (fun entry => toJsonSchema entry.api
        (some { title := some entry.endpoint, includeExtensions := none }))
      bundle.apis [] (by simp)
  · intro e
    unfold bundleToJsonSchema
    rw [getAssoc_foldl_setAssoc (fun entry => entry.endpoint)
      (fun entry => toJsonSchema entry.api
        (some { title := some entry.endpoint, includeExtensions := none }))
      e bundle.apis []]
    cases hf : bundle.apis.reverse.find? (fun entry => entry.endpoint == e) with
    | some entry => simp [hf]
    | none => simp [hf, getAssoc]
